import Mathlib

/-!
Verification development for the metadata-library core
(`src/calibre/library/database2.py`): the `ResultCache` materialized view,
the `CoverCache` thumbnail cache, the path policy
(`sanitize_file_name`, `construct_path_name`, `construct_file_name`) and the
`LibraryDatabase2` orchestration operations (`set_path`, `remove_format`,
`set_title`).

Modelling conventions:
* Python strings are `List Char`; byte/unicode encoding round-trips
  (`encode`/`decode` with the filesystem encoding) are modelled as the
  identity.
* Machine-level ids are `Nat` (ids in this program are SQLite rowids,
  which are positive).
* A Python function that can raise an exception is modelled as returning
  `Option` (`none` = an exception propagates to the caller).
* The SQLite connection is modelled as an oracle `Nat → Option Row`
  (`fetchone` on the `meta` view: `none` when no row exists for the id).
* The filesystem is modelled as an oracle record `FS`; a file is
  represented by `Option` of its content, `none` meaning the path is
  absent or inaccessible (the code checks `os.access` with `R_OK|W_OK`
  before reading).
-/

/-! ## Path policy: `sanitize_file_name`, `construct_path_name`,
`construct_file_name` -/

/-- The character class of `_filename_sanitize`,
the regex `[\0\\|\?\*<":>\+\[\]/]` at line 26 of the source. -/
def isInvalidFileChar (c : Char) : Bool :=
  c == '\x00' || c == '\\' || c == '|' || c == '?' || c == '*' || c == '<' ||
  c == '"' || c == ':' || c == '>' || c == '+' || c == '[' || c == ']' || c == '/'

/-- Python's `\s` class on byte strings (also the set stripped by
`str.strip()`): space, tab, newline, carriage return, vertical tab, form feed. -/
def isPySpace (c : Char) : Bool :=
  c == ' ' || c == '\t' || c == '\n' || c == '\r' || c == '\x0b' || c == '\x0c'

/-- `sanitize_file_name(name)` (lines 27-40): replace every character of the
invalid class by `'_'`, then replace every whitespace character by a space,
then strip leading and trailing whitespace.  The `encode`/`decode` byte
round-trip is modelled as the identity. -/
def sanitize_file_name (name : List Char) : List Char :=
  let one := name.map (fun c => if isInvalidFileChar c then '_' else c)
  let two := one.map (fun c => if isPySpace c then ' ' else c)
  ((two.dropWhile isPySpace).reverse.dropWhile isPySpace).reverse

/-- `PATH_LIMIT` (line 344): `40 if 'win32' in sys.platform else 100`.
We model the non-Windows branch; all path-policy functions below are
parametrized by the limit, so nothing depends on this choice. -/
def PATH_LIMIT : Nat := 100

/-- `_('Unknown')`: the placeholder used when a book has no authors. -/
def unknownAuthor : List Char := "Unknown".toList

/-- `authors.split(',')[0]`: the text before the first comma of the stored
comma-separated author string (the whole string when it has no comma). -/
def firstAuthor (authors : List Char) : List Char :=
  authors.takeWhile (fun c => !(c == ','))

/-- `LibraryDatabase2.construct_path_name` (lines 459-469).  `authors` is the
comma-separated author string fetched from the store (`[]` models `None` or
the empty string, both falsy in Python); `title` is the stored title.
Note the order of operations in the source: the author component is first
split at the comma, then truncated to the limit, and only then sanitized;
likewise the title is truncated before being sanitized. -/
def construct_path_name (limit : Nat) (authors title : List Char) (id : Nat) :
    List Char :=
  let authors := if authors.isEmpty then unknownAuthor else authors
  let author := sanitize_file_name ((firstAuthor authors).take limit)
  let t := sanitize_file_name (title.take limit)
  author ++ '/' :: (t ++ (" (" ++ toString id ++ ")").toList)

/-- `LibraryDatabase2.construct_file_name` (lines 471-481): the canonical
base filename `title + ' - ' + author`, with the same truncate-then-sanitize
treatment of both components as `construct_path_name`. -/
def construct_file_name (limit : Nat) (authors title : List Char) : List Char :=
  let authors := if authors.isEmpty then unknownAuthor else authors
  let author := sanitize_file_name ((firstAuthor authors).take limit)
  let t := sanitize_file_name (title.take limit)
  t ++ " - ".toList ++ author

/-- The claim's (and spec §3's) formula for the canonical path:
`sanitize(primary_author)[:LIMIT] + "/" + sanitize(title)[:LIMIT] + " (" + id + ")"`,
i.e. each component sanitized first and truncated afterwards.  This
definition follows the spec's words and exists only to be compared with
`construct_path_name`, which follows the source. -/
def canonical_path_spec (limit : Nat) (authors title : List Char) (id : Nat) :
    List Char :=
  let authors := if authors.isEmpty then unknownAuthor else authors
  let author := (sanitize_file_name (firstAuthor authors)).take limit
  let t := (sanitize_file_name title).take limit
  author ++ '/' :: (t ++ (" (" ++ toString id ++ ")").toList)

/-! ## ResultCache (lines 169-328)

A row of the `meta` view is modelled abstractly as a tuple of column
values; the backing array `_data` stores `Option Row` (`none` is the
tombstone).  `SELECT * from meta WHERE id=?` is the oracle
`conn : Nat → Option Row`. -/

/-- A metadata row (a tuple of column values, content irrelevant here). -/
abbrev Row := List String

/-- The mutable state of a `ResultCache`: the backing data array `_data`
(one slot per id, `none` = tombstone), the full ordering `_map` and the
filtered ordering `_map_filtered`.  (In `__init__` the three fields start
as empty lists; we model them as three independent empty lists.) -/
structure RCState where
  _data : List (Option Row)
  _map : List Nat
  _map_filtered : List Nat
deriving DecidableEq

/-- `ResultCache.remove` (lines 201-206):
`self._data[id] = None` raises `IndexError` when `id` is outside the
backing array (modelled by `none`); otherwise the slot becomes a tombstone
and the first occurrence of `id` is removed from each ordering in which it
occurs (`list.remove` removes the first occurrence; the `in` guard makes
the call a no-op on an ordering not containing `id`, exactly
`List.erase`). -/
def rcRemove (s : RCState) (id : Nat) : Option RCState :=
  if id < s._data.length then
    some { _data := s._data.set id none,
           _map := s._map.erase id,
           _map_filtered := s._map_filtered.erase id }
  else none

/-- `ResultCache.books_added` (lines 224-231): extend the backing array
with tombstones up to `max(ids)+2` slots, load each new id's row from the
connection, and prepend `ids` to both orderings (`l[0:0] = ids`).
`max(ids) - len(self._data) + 2` can be negative in Python, in which case
`repeat` produces nothing; `Nat` subtraction in `mx + 2 - length` clamps
at zero the same way.  After the extension the array has at least
`max(ids)+2` slots, so every `self._data[id] = ...` assignment is in
bounds and `List.set` coincides with the Python assignment. -/
def rcBooksAdded (s : RCState) (ids : List Nat) (conn : Nat → Option Row) :
    RCState :=
  if ids.isEmpty then s
  else
    let mx := ids.foldl Nat.max 0
    let ext := s._data ++ List.replicate (mx + 2 - s._data.length) none
    let dat := ids.foldl (fun d i => d.set i (conn i)) ext
    { _data := dat, _map := ids ++ s._map, _map_filtered := ids ++ s._map_filtered }

/-- `ResultCache.refresh` (lines 233-246): `sortedIds` is the id column of
the sort query's result (`map(itemgetter(0), method(...))`); `meta` is the
full table scan `SELECT * FROM meta`, each row paired with its id column
(`r[0]`).  The backing array gets `temp[-1][0]+2` slots (empty when the
scan is empty) and each row is written at its id.  Both orderings are set
to the sorted ids. -/
def rcRefresh (sortedIds : List Nat) (meta : List (Nat × Row)) : RCState :=
  let n := match meta.getLast? with
    | none => 0
    | some p => p.1 + 2
  let dat := meta.foldl (fun d p => d.set p.1 (some p.2)) (List.replicate n none)
  { _data := dat, _map := sortedIds, _map_filtered := sortedIds }

/-- The keep-decision of `ResultCache.filter` for one id: with `OR = true`
keep when at least one token matches the id's row, otherwise keep when
every token matches.  A token (`SearchToken.match`) is an opaque predicate
on the backing-array slot passed to it (`self._data[id]`). -/
def rcKeep (dat : List (Option Row)) (filters : List (Option Row → Bool))
    (mOR : Bool) (id : Nat) : Bool :=
  if mOR then filters.any (fun t => t (dat.getD id none))
  else filters.all (fun t => t (dat.getD id none))

/-- `ResultCache.filter` (lines 248-277): when `refilter` is false,
`_map_filtered` is first reset to a copy of `_map`.  With a non-empty
token list the loop reads `self._data[id]` for every id of the working
ordering, which raises `IndexError` as soon as an id is out of bounds
(modelled by the bounds check returning `none`); otherwise it collects
every non-kept id into `remove` (once per occurrence) and then calls
`list.remove` — erase the first occurrence — for each collected id. -/
def rcFilter (s : RCState) (filters : List (Option Row → Bool))
    (refilter mOR : Bool) : Option RCState :=
  let mf0 := if refilter then s._map_filtered else s._map
  if filters.isEmpty then some { s with _map_filtered := mf0 }
  else if mf0.all (fun id => decide (id < s._data.length)) then
    let rem := mf0.filter (fun id => !(rcKeep s._data filters mOR id))
    some { s with _map_filtered := rem.foldl (fun acc id => acc.erase id) mf0 }
  else none

/-- The invariant exactly as the claim states it: `_map_filtered` is an
order-preserving subsequence of `_map`, and every id occurring in either
ordering has a non-tombstone slot in the backing array. -/
def rcInvStated (s : RCState) : Prop :=
  s._map_filtered.Sublist s._map ∧
  (∀ id ∈ s._map, (s._data.getD id none).isSome) ∧
  (∀ id ∈ s._map_filtered, (s._data.getD id none).isSome)

instance (s : RCState) : Decidable (rcInvStated s) := by
  unfold rcInvStated; infer_instance

/-- The invariant strengthened with duplicate-freedom of `_map` (the
amended form of claim C1; duplicate-freedom of `_map_filtered` follows
from the sublist property). -/
def rcInv (s : RCState) : Prop :=
  rcInvStated s ∧ s._map.Nodup

/-! ## CoverCache (lines 42-150) -/

/-- A decoded cover image (opaque content). -/
abbrev Img := Nat

/-- The two structures of `CoverCache` touched by `set_cache`: the
decoded-image cache (an id-keyed map, modelled as an association list in
iteration order) and the pending load queue. -/
structure CoverCacheState where
  cache : List (Nat × Img)
  load_queue : List Nat
deriving DecidableEq

/-- `CoverCache.set_cache` (lines 70-82): walk the cache's keys, recording
in `already_loaded` every key also in `ids` and evicting every other
entry; then replace the load queue by the ids of the input not in
`already_loaded`, in input order. -/
def set_cache (s : CoverCacheState) (ids : List Nat) : CoverCacheState :=
  let already := (s.cache.map Prod.fst).filter (fun k => ids.contains k)
  let cache := s.cache.filter (fun kv => ids.contains kv.1)
  let q := ids.filter (fun i => !(already.contains i))
  { cache := cache, load_queue := q }

/-! ## LibraryDatabase2: books, the filesystem oracle, `set_path`,
`remove_format`, `set_title` (lines 340-684)

One book's authoritative store state: its stored metadata columns and its
`data` (format) rows, in rowid order.  Events record the externally
visible operations a call performs: file operations, the store write of
the path column, transaction commits and listener notifications. -/

/-- The store's state for one book: the id, the comma-separated author
string (`[]` models SQL `NULL`/empty, falsy in Python), the title, the
stored relative path (`'/'`-separated) and the format rows
`(format tag, name)` in rowid order. -/
structure Book where
  id : Nat
  authors : List Char
  title : List Char
  path : List Char
  formats : List (List Char × List Char)
deriving DecidableEq

/-- Externally visible operations performed by a call. -/
inductive Ev where
  | MakeDirs (p : List Char)
  | WriteCover (dir : List Char)
  | WriteFormat (fmt dir : List Char)
  | RemoveFile (p : List Char)
  | DeleteRow (fmt : List Char)
  | UpdatePath (p : List Char)
  | UpdateTitle (t : List Char)
  | Commit
  | Notify (event : List Char)
  | RmTree (p : List Char)
deriving DecidableEq

/-- The filesystem oracle.  `file p` is the content of the file at the
(library-relative) path `p` when it exists and is accessible
(`os.access` with `R_OK|W_OK`), else `none`.  `dirExists` is
`os.path.exists` on directories.  `parentEmptyAfterRm p` tells whether
`os.listdir p` is empty after the old book directory has been removed
(the prune check of `set_path`). -/
structure FS where
  dirExists : List Char → Bool
  file : List Char → Option (List Char)
  parentEmptyAfterRm : List Char → Bool

/-- `('.' + format.lower()) if format else ''`. -/
def fmtExt (fmt : List Char) : List Char :=
  if fmt.isEmpty then [] else '.' :: fmt.map Char.toLower

/-- `os.path.join(dir, name)` with `'/'` separators. -/
def joinPath (dir name : List Char) : List Char := dir ++ '/' :: name

/-- `os.path.dirname`: the text before the last `'/'` (empty when there is
no separator). -/
def dirname (p : List Char) : List Char :=
  ((p.reverse.dropWhile (fun c => !(c == '/'))).drop 1).reverse

/-- `SELECT name FROM data WHERE book=? AND format=?` + `fetchone`:
the name of the first row with the given format tag, `none` when no row
matches. -/
def rowNameIn (rows : List (List Char × List Char)) (fmt : List Char) :
    Option (List Char) :=
  (rows.find? (fun r => r.1 == fmt)).map (fun r => r.2)

/-- The same lookup against a book's current rows. -/
def rowName (st : Book) (fmt : List Char) : Option (List Char) :=
  rowNameIn st.formats fmt

/-- `LibraryDatabase2.formats` (lines 590-605): with no rows at all the
`fetchone()[0]` lookup raises and the method returns `None` (modelled as
the empty list, which is what `set_path` turns `None` into); otherwise the
*first* row's name is used to probe accessibility of every format's file
under the stored path, and only the accessible ones are returned. -/
def formatsOf (st : Book) (fs : FS) : List (List Char) :=
  match st.formats with
  | [] => []
  | (_, n0) :: _ =>
    (st.formats.map Prod.fst).filter
      (fun f => (fs.file (joinPath st.path (n0 ++ fmtExt f))).isSome)

/-- `"cover.jpg"`. -/
def coverName : List Char := "cover.jpg".toList

/-- `"metadata"`, the notification event name. -/
def metadataEv : List Char := "metadata".toList

/-- The migration loop of `set_path` (lines 510-520) over the accessible
formats: for each format, `self.format(id, format)` reads the file at the
stored path under the format's own row name — when that row's name is
falsy or its file inaccessible, `format()` falls through to a call of
`remove_format` on the *builtin* `id` function, which raises (modelled by
`none`); an empty payload (`if not f: continue`) is skipped with its row
left untouched; otherwise `add_format(id, format, stream, path=tpath)`
deletes the row, writes the payload under the fresh basename in the target
directory, inserts a new row `(format.upper(), fname)` at the end, commits
and notifies.  The row list is threaded because later iterations query the
mutated rows. -/
def migrateFormats (fs : FS) (spath tpath fname : List Char) :
    List (List Char) → List (List Char × List Char) →
    Option (List (List Char × List Char) × List Ev)
  | [], rows => some (rows, [])
  | f :: rest, rows =>
    match rowNameIn rows f with
    | none => none
    | some n =>
      if n.isEmpty then none
      else
        match fs.file (joinPath spath (n ++ fmtExt f)) with
        | none => none
        | some content =>
          if content.isEmpty then migrateFormats fs spath tpath fname rest rows
          else
            let rows1 := (rows.filter (fun r => !(r.1 == f))) ++
              [(f.map Char.toUpper, fname)]
            match migrateFormats fs spath tpath fname rest rows1 with
            | none => none
            | some (rows2, evs) =>
              some (rows2,
                Ev.WriteFormat f tpath :: Ev.Commit :: Ev.Notify metadataEv :: evs)

/-- The `changed` flag of `set_path` (lines 496-501): some accessible
format has a truthy stored name different from the freshly computed
basename.  (Each format of the list comes from a `data` row, so the
per-format name lookup cannot miss; the `getD []` default is dead.) -/
def spChanged (limit : Nat) (st : Book) (fs : FS) : Bool :=
  (formatsOf st fs).any (fun f =>
    let n := (rowName st f).getD []
    !n.isEmpty && !(n == construct_file_name limit st.authors st.title))

/-- The cover part of the migration (lines 511-513): `cover(id)` returns
the content of `cover.jpg` under the stored path when accessible, and the
file is rewritten in the target directory whenever that is not `None`. -/
def spCoverEvs (st : Book) (fs : FS) (tpath : List Char) : List Ev :=
  if (fs.file (joinPath st.path coverName)).isSome then [Ev.WriteCover tpath]
  else []

/-- The directory-deletion tail of `set_path` (lines 523-530): only when
the normalized old and new directories differ, remove the old tree and
then its parent if the parent directory was left empty. -/
def spDels (norm : List Char → List Char) (fs : FS) (spath tpath : List Char) :
    List Ev :=
  if !(norm spath == norm tpath) then
    Ev.RmTree spath ::
      (if fs.parentEmptyAfterRm (dirname spath) then [Ev.RmTree (dirname spath)]
       else [])
  else []

/-- `LibraryDatabase2.set_path` (lines 483-530).  `norm` is the
normalization `lambda x: os.path.abspath(os.path.normcase(x))` used for
the old-vs-new directory comparison, kept opaque.  The call recomputes the
canonical path and basename; when the path is unchanged and no accessible
format's row name is truthy and different from the fresh basename
(`spChanged`), it returns immediately having done nothing.  Otherwise it
creates the target directory if missing, migrates the cover and the
accessible formats when the old directory exists (string equality with the
target approximates `os.path.exists` after the target was created), writes
the new path to the store and commits, and finally performs the guarded
deletions of `spDels`.  The deletion guard of line 525 re-tests the same
`current_path and os.path.exists(spath)` condition as the migration guard
of line 510, so the deletions appear only in the migration branch. -/
def set_path (norm : List Char → List Char) (limit : Nat) (st : Book)
    (fs : FS) : Option (Book × List Ev) :=
  let path := construct_path_name limit st.authors st.title st.id
  if path == st.path && !(spChanged limit st fs) then some (st, [])
  else
    let mk := if fs.dirExists path then [] else [Ev.MakeDirs path]
    if !st.path.isEmpty && (fs.dirExists st.path || st.path == path) then
      match migrateFormats fs st.path path
          (construct_file_name limit st.authors st.title) (formatsOf st fs)
          st.formats with
      | none => none
      | some (rows2, fevs) =>
        some ({ st with path := path, formats := rows2 },
          mk ++ spCoverEvs st fs path ++ fevs ++
            (Ev.UpdatePath path :: Ev.Commit :: spDels norm fs st.path path))
    else
      some ({ st with path := path }, mk ++ [Ev.UpdatePath path, Ev.Commit])

/-- `LibraryDatabase2.remove_format` (lines 670-684): look up the row's
name for the format tag as given; when the row is missing or its name is
falsy, do nothing at all; otherwise attempt deletion of the file (a
failure — e.g. the file is already gone — is swallowed by the bare
`except`, so the `RemoveFile` event is emitted only when the file exists),
delete every row whose tag equals the upper-cased format, commit, and
notify `"metadata"`.  The call is total: no error ever propagates. -/
def remove_format (st : Book) (fs : FS) (fmt : List Char) : Book × List Ev :=
  match rowName st fmt with
  | none => (st, [])
  | some n =>
    if n.isEmpty then (st, [])
    else
      let p := joinPath st.path (n ++ fmtExt fmt)
      let fileEvs := if (fs.file p).isSome then [Ev.RemoveFile p] else []
      ({ st with formats := st.formats.filter (fun r => !(r.1 == fmt.map Char.toUpper)) },
       fileEvs ++ [Ev.DeleteRow (fmt.map Char.toUpper), Ev.Commit, Ev.Notify metadataEv])

/-- `LibraryDatabase2.set_title` (lines 805-812): a falsy title (`None` or
the empty string, both modelled by `[]`) returns immediately; otherwise
the title column is updated (visible to the same connection before the
commit), `set_path` runs on the updated metadata, and `"metadata"` is
notified. -/
def set_title (norm : List Char → List Char) (limit : Nat) (st : Book)
    (fs : FS) (title : List Char) : Option (Book × List Ev) :=
  if title.isEmpty then some (st, [])
  else
    match set_path norm limit { st with title := title } fs with
    | none => none
    | some (st2, evs) =>
      some (st2, Ev.UpdateTitle title :: (evs ++ [Ev.Notify metadataEv]))

/-! ## Helper lemmas -/

/-- Erasing elements all different from the head leaves the head in place. -/
theorem foldl_erase_cons_of_ne {α} [DecidableEq α] :
    ∀ (rl : List α) (x : α) (acc : List α), (∀ y ∈ rl, y ≠ x) →
      rl.foldl (fun a y => a.erase y) (x :: acc) =
        x :: rl.foldl (fun a y => a.erase y) acc
  | [], _, _, _ => rfl
  | y :: rl, x, acc, h => by
    have hyx : ¬(x == y) := by
      simp only [beq_iff_eq]
      exact fun hxy => h y (List.mem_cons_self y rl) (hxy ▸ rfl)
    simp only [List.foldl_cons, List.erase_cons_tail hyx]
    exact foldl_erase_cons_of_ne rl x (acc.erase y)
      (fun z hz => h z (List.mem_cons_of_mem y hz))

/-- The `remove`-then-erase loop of `ResultCache.filter`: collecting every
non-kept id (once per occurrence) and then erasing each collected id's
first occurrence computes exactly `List.filter`. -/
theorem foldl_erase_filter {α} [DecidableEq α] (p : α → Bool) :
    ∀ l : List α,
      (l.filter (fun x => !(p x))).foldl (fun a y => a.erase y) l = l.filter p
  | [] => rfl
  | x :: xs => by
    by_cases hp : p x = true
    · have hrl : (x :: xs).filter (fun y => !(p y)) = xs.filter (fun y => !(p y)) := by
        simp [List.filter_cons, hp]
      rw [hrl, foldl_erase_cons_of_ne _ x xs ?hne, foldl_erase_filter p xs,
        List.filter_cons_of_pos hp]
      case hne =>
        intro y hy hyx
        have := List.of_mem_filter hy
        rw [hyx] at this
        simp [hp] at this
    · have hp' : p x = false := Bool.eq_false_iff.mpr hp
      have hrl : (x :: xs).filter (fun y => !(p y)) =
          x :: xs.filter (fun y => !(p y)) := by
        simp [List.filter_cons, hp']
      rw [hrl, List.foldl_cons, List.erase_cons_head, foldl_erase_filter p xs,
        List.filter_cons_of_neg (by simp [hp'])]

/-- A slot whose `getD` lookup is non-`none` lies inside the array. -/
theorem lt_length_of_getD_isSome {β} {d : List (Option β)} {i : Nat}
    (h : (d.getD i none).isSome) : i < d.length := by
  by_contra hge
  rw [List.getD_eq_getElem?_getD, List.getElem?_eq_none (Nat.le_of_not_lt hge)] at h
  simp at h

/-- Appending slots on the right does not change an in-bounds lookup. -/
theorem getD_append_of_isSome {β} {d : List (Option β)} (r : List (Option β))
    {i : Nat} (h : (d.getD i none).isSome) :
    (d ++ r).getD i none = d.getD i none := by
  rw [List.getD_eq_getElem?_getD, List.getD_eq_getElem?_getD,
    List.getElem?_append_left (lt_length_of_getD_isSome h)]

/-- A fold of stores preserves the array's length. -/
theorem foldl_set_length {σ β} (key : σ → Nat) (val : σ → Option β) :
    ∀ (xs : List σ) (d : List (Option β)),
      (xs.foldl (fun d x => d.set (key x) (val x)) d).length = d.length
  | [], _ => rfl
  | x :: xs, d => by
    rw [List.foldl_cons, foldl_set_length key val xs, List.length_set]

/-- A fold of stores whose stored values are all non-`none` leaves a slot
non-`none` when the slot started non-`none` or is written in bounds. -/
theorem foldl_set_isSome {σ β} (key : σ → Nat) (val : σ → Option β) :
    ∀ (xs : List σ) (d : List (Option β)) (i : Nat),
      (∀ x ∈ xs, (val x).isSome) →
      ((∃ x ∈ xs, key x = i ∧ i < d.length) ∨ (d.getD i none).isSome) →
      ((xs.foldl (fun d x => d.set (key x) (val x)) d).getD i none).isSome
  | [], _, _, _, h => by
    rcases h with ⟨_, hmem, _⟩ | h
    · exact absurd hmem (List.not_mem_nil _)
    · exact h
  | x :: xs, d, i, hval, h => by
    rw [List.foldl_cons]
    have hvx : (val x).isSome := hval x (List.mem_cons_self x xs)
    have hval' : ∀ y ∈ xs, (val y).isSome :=
      fun y hy => hval y (List.mem_cons_of_mem x hy)
    rcases h with ⟨y, hy, hkey, hlt⟩ | hs
    · rcases List.mem_cons.mp hy with rfl | hy'
      · -- the head writes slot `i` (or a later element rewrites it)
        refine foldl_set_isSome key val xs _ i hval' (Or.inr ?_)
        rw [hkey, List.getD_eq_getElem?_getD, List.getElem?_set_self (hkey ▸ hlt)]
        simpa using hvx
      · exact foldl_set_isSome key val xs _ i hval'
          (Or.inl ⟨y, hy', hkey, by simpa [List.length_set] using hlt⟩)
    · refine foldl_set_isSome key val xs _ i hval' (Or.inr ?_)
      by_cases hk : key x = i
      · rw [hk, List.getD_eq_getElem?_getD,
          List.getElem?_set_self (lt_length_of_getD_isSome hs)]
        simpa using hvx
      · rwa [List.getD_eq_getElem?_getD, List.getElem?_set_ne hk,
          ← List.getD_eq_getElem?_getD]

/-- Every element of a list is bounded by its left fold with `Nat.max`
(the model of Python's `max(ids)`). -/
theorem le_foldl_max :
    ∀ (ids : List Nat) (a : Nat),
      a ≤ ids.foldl Nat.max a ∧ ∀ i ∈ ids, i ≤ ids.foldl Nat.max a
  | [], a => ⟨Nat.le_refl a, fun _ h => absurd h (List.not_mem_nil _)⟩
  | x :: xs, a => by
    have h := le_foldl_max xs (Nat.max a x)
    refine ⟨Nat.le_trans (Nat.le_max_left a x) h.1, fun i hi => ?_⟩
    rcases List.mem_cons.mp hi with rfl | hi'
    · exact Nat.le_trans (Nat.le_max_right a i) h.1
    · exact h.2 i hi'

/-! ## Claim C2: the canonical directory path -/

/-- Claim C2 as stated is false: the source truncates each component to
the limit *before* sanitizing it (`sanitize_file_name(authors.split(',')[0][:PATH_LIMIT])`),
while the claim (and spec §3) say the component is sanitized first and
then truncated.  For an author of 99 `'a'`s followed by two spaces and a
`'b'`, truncation at 100 leaves a trailing space that the sanitizer then
strips, giving 99 characters, whereas sanitizing first leaves the interior
spaces intact and truncation then keeps a trailing space, giving 100
characters.  The two orders produce different canonical paths. -/
theorem c2_counterexample :
    construct_path_name PATH_LIMIT (List.replicate 99 'a' ++ [' ', ' ', 'b'])
        ['T'] 1 ≠
      canonical_path_spec PATH_LIMIT (List.replicate 99 'a' ++ [' ', ' ', 'b'])
        ['T'] 1 := by
  decide

/-- Claim C2, amended: the canonical directory path is
`sanitize(primary_author[:LIMIT]) + "/" + sanitize(title[:LIMIT]) + " (" + id + ")"`
— each component is truncated to the fixed limit first and then passed
through the sanitizer (the opposite order from the claim's wording). -/
theorem construct_path_name_truncate_then_sanitize (limit : Nat)
    (authors title : List Char) (id : Nat) (h : authors ≠ []) :
    construct_path_name limit authors title id =
      sanitize_file_name ((firstAuthor authors).take limit) ++
        '/' :: (sanitize_file_name (title.take limit) ++
          (" (" ++ toString id ++ ")").toList) := by
  unfold construct_path_name
  rw [if_neg (by simpa using h)]

/-- Witness for the amended C2 at a concrete book. -/
theorem c2_witness :
    construct_path_name 100 "Doe".toList "T".toList 1 =
      sanitize_file_name ((firstAuthor "Doe".toList).take 100) ++
        '/' :: (sanitize_file_name ("T".toList.take 100) ++
          (" (" ++ toString 1 ++ ")").toList) :=
  construct_path_name_truncate_then_sanitize 100 "Doe".toList "T".toList 1
    (by decide)

/-! ## Claim C4: `ResultCache.remove` -/

/-- Claim C4 as stated is false: removing an id that was never inserted
is *not* always a no-op.  On a fresh `ResultCache` (`__init__` leaves all
three structures empty) the very first statement of `remove`,
`self._data[id] = None`, indexes past the end of the empty backing array
and raises `IndexError` (modelled by `none`). -/
theorem c4_counterexample :
    rcRemove { _data := [], _map := [], _map_filtered := [] } 0 = none := by
  decide

/-- Claim C4, amended: for an id *inside the backing array* the removal
sets the slot to a tombstone and erases the first occurrence of the id
from each ordering; when the id is absent from an ordering that ordering
is untouched; and when the id occurs at most once in each ordering the
removal is idempotent.  For an id at or beyond the backing array's length
the call raises `IndexError` instead of being a no-op. -/
theorem rcRemove_spec (s : RCState) (id : Nat) (h : id < s._data.length) :
    rcRemove s id =
      some { _data := s._data.set id none, _map := s._map.erase id,
             _map_filtered := s._map_filtered.erase id } ∧
    (id ∉ s._map → s._map.erase id = s._map) ∧
    (id ∉ s._map_filtered → s._map_filtered.erase id = s._map_filtered) ∧
    (s._map.count id ≤ 1 → s._map_filtered.count id ≤ 1 →
      rcRemove { _data := s._data.set id none, _map := s._map.erase id,
                 _map_filtered := s._map_filtered.erase id } id =
        some { _data := s._data.set id none, _map := s._map.erase id,
               _map_filtered := s._map_filtered.erase id }) := by
  refine ⟨by rw [rcRemove, if_pos h], fun h1 => List.erase_of_not_mem h1,
    fun h2 => List.erase_of_not_mem h2, fun hc1 hc2 => ?_⟩
  have hlen : id < (s._data.set id none).length := by
    rwa [List.length_set]
  rw [rcRemove]
  rw [if_pos hlen]
  have e1 : (s._map.erase id).erase id = s._map.erase id := by
    apply List.erase_of_not_mem
    rw [← List.count_eq_zero, List.count_erase_self]
    omega
  have e2 : (s._map_filtered.erase id).erase id = s._map_filtered.erase id := by
    apply List.erase_of_not_mem
    rw [← List.count_eq_zero, List.count_erase_self]
    omega
  rw [List.set_set, e1, e2]

/-- Witness for the amended C4: a one-book cache; the first removal
tombstones the slot and empties both orderings, the second removal is a
no-op. -/
theorem c4_witness :
    rcRemove { _data := [some ([] : Row)], _map := [0], _map_filtered := [0] } 0 =
      some { _data := [none], _map := [], _map_filtered := [] } ∧
    rcRemove { _data := [none], _map := [], _map_filtered := [] } 0 =
      some { _data := [none], _map := [], _map_filtered := [] } := by
  have h := rcRemove_spec
    { _data := [some ([] : Row)], _map := [0], _map_filtered := [0] } 0
    (by decide)
  exact ⟨h.1, h.2.2.2 (by decide) (by decide)⟩

/-! ## Claim C5: insert-then-remove round trip -/

/-- Claim C5: `books_added([id])` followed by `remove(id)` restores both
orderings.  The insertion extends the backing array to at least `id + 2`
slots (so the removal's array access cannot fail) and prepends `id` to
both orderings; the removal then erases exactly that first occurrence.
(The backing array itself is *not* restored — it keeps the extra slots and
the new tombstone — but the claim speaks only of the two orderings.) -/
theorem books_added_remove_roundtrip (s : RCState) (id : Nat)
    (conn : Nat → Option Row) (_h1 : id ∉ s._map) (_h2 : id ∉ s._map_filtered) :
    ∃ s', rcRemove (rcBooksAdded s [id] conn) id = some s' ∧
      s'._map = s._map ∧ s'._map_filtered = s._map_filtered := by
  have hb : rcBooksAdded s [id] conn =
      { _data := (s._data ++
          List.replicate (([id].foldl Nat.max 0) + 2 - s._data.length) none).set
            id (conn id),
        _map := id :: s._map, _map_filtered := id :: s._map_filtered } := by
    rw [rcBooksAdded, if_neg (by simp)]
    rfl
  rw [hb]
  have hmx : [id].foldl Nat.max 0 = id := by
    simp [List.foldl_cons, Nat.max_def]
  have hlen : id < ((s._data ++
      List.replicate (([id].foldl Nat.max 0) + 2 - s._data.length) none).set
        id (conn id)).length := by
    rw [List.length_set, List.length_append, List.length_replicate, hmx]
    omega
  refine ⟨_, by rw [rcRemove, if_pos hlen], ?_, ?_⟩
  · exact List.erase_cons_head id s._map
  · exact List.erase_cons_head id s._map_filtered

/-- Witness for C5 at a concrete cache and fresh id. -/
theorem c5_witness :
    ∃ s', rcRemove (rcBooksAdded
        { _data := [some ([] : Row)], _map := [0], _map_filtered := [0] } [3]
        (fun _ => some ([] : Row))) 3 = some s' ∧
      s'._map = [0] ∧ s'._map_filtered = [0] :=
  books_added_remove_roundtrip
    { _data := [some ([] : Row)], _map := [0], _map_filtered := [0] } 3
    (fun _ => some ([] : Row)) (by decide) (by decide)

/-! ## Claim C6: `ResultCache.filter` semantics -/

/-- Claim C6 as stated is false at the empty predicate list under
`match_any = true`: the claim says an id is kept iff at least one
predicate matches its row, which for zero predicates keeps nothing, yet
the source's `if filters:` guard skips the whole matching loop, so the
call leaves `visible_ids` reset to all of `all_ids`.  Here the call keeps
id 0 visible while the claim's keep-iff rule retains the empty list. -/
theorem c6_counterexample :
    rcFilter { _data := [some ([] : Row)], _map := [0], _map_filtered := [] }
        [] false true =
      some { _data := [some ([] : Row)], _map := [0], _map_filtered := [0] } ∧
    ([0] : List Nat).filter
        (rcKeep [some ([] : Row)] ([] : List (Option Row → Bool)) true) = [] ∧
    ([0] : List Nat) ≠ [] := by
  refine ⟨rfl, rfl, by decide⟩

/-- Claim C6, amended: `filter` with `refilter = false` first resets
`visible_ids` to a copy of `all_ids`; with a *non-empty* predicate list
and every visited id inside the backing array, an id is then kept iff at
least one predicate matches its row under `match_any = true`, and iff
every predicate matches under `match_any = false`; with an empty
predicate list `visible_ids` ends exactly equal to `all_ids` regardless
of `match_any`. -/
theorem rcFilter_spec (s : RCState) (filters : List (Option Row → Bool))
    (mOR : Bool) (h : ∀ id ∈ s._map, id < s._data.length) :
    rcFilter s filters false mOR =
      some { s with _map_filtered :=
        if filters.isEmpty then s._map
        else s._map.filter (rcKeep s._data filters mOR) } := by
  by_cases he : filters.isEmpty
  · rw [rcFilter]
    simp only [Bool.false_eq_true, if_false, if_pos he]
  · have hall : s._map.all (fun id => decide (id < s._data.length)) = true := by
      rw [List.all_eq_true]
      exact fun id hid => decide_eq_true (h id hid)
    rw [rcFilter]
    simp only [Bool.false_eq_true, if_false]
    rw [if_neg he, if_pos hall, if_neg he,
      foldl_erase_filter (rcKeep s._data filters mOR) s._map]

/-- Witness for the amended C6: one non-tombstone row, one predicate
(`Option.isSome`), conjunctive matching keeps the single visible id. -/
theorem c6_witness :
    rcFilter { _data := [some ([] : Row)], _map := [0], _map_filtered := [0] }
        [fun r => r.isSome] false false =
      some { _data := [some ([] : Row)], _map := [0],
             _map_filtered :=
               if ([fun r => r.isSome] : List (Option Row → Bool)).isEmpty
               then [0]
               else ([0] : List Nat).filter
                 (rcKeep [some ([] : Row)] [fun r => r.isSome] false) } :=
  rcFilter_spec { _data := [some ([] : Row)], _map := [0], _map_filtered := [0] }
    [fun r => r.isSome] false (by decide)

/-! ## Claim C9: `CoverCache.set_cache` -/

/-- Claim C9: after `set_cache(ids)` the decoded-image cache holds exactly
its previous entries whose ids occur in the input, and the load queue is
exactly the input ids that were not already decoded-cached, in input
order. -/
theorem set_cache_spec (s : CoverCacheState) (ids : List Nat) :
    (set_cache s ids).cache = s.cache.filter (fun kv => ids.contains kv.1) ∧
    (set_cache s ids).load_queue =
      ids.filter (fun i => !((s.cache.map Prod.fst).contains i)) := by
  refine ⟨rfl, ?_⟩
  apply List.filter_congr
  intro x hx
  have hx' : ids.contains x = true := List.elem_iff.mpr hx
  by_cases hk : x ∈ s.cache.map Prod.fst
  · have h1 : ((s.cache.map Prod.fst).filter
        (fun k => ids.contains k)).contains x = true :=
      List.elem_iff.mpr (List.mem_filter.mpr ⟨hk, hx'⟩)
    have h2 : (s.cache.map Prod.fst).contains x = true := List.elem_iff.mpr hk
    rw [h1, h2]
  · have h1 : ((s.cache.map Prod.fst).filter
        (fun k => ids.contains k)).contains x = false := by
      rw [← Bool.not_eq_true]
      intro hmem
      exact hk (List.mem_filter.mp (List.elem_iff.mp hmem)).1
    have h2 : (s.cache.map Prod.fst).contains x = false := by
      rw [← Bool.not_eq_true]
      intro hmem
      exact hk (List.elem_iff.mp hmem)
    rw [h1, h2]

/-! ## Claim C10: `set_title` on a falsy title -/

/-- Claim C10: `set_title(id, title)` with an empty (or `None`) title
returns at `if not title: return` before the `UPDATE`, before `set_path`
and before the notification: the store, the filesystem and the listeners
are untouched (unchanged book state, empty event trace). -/
theorem set_title_empty_noop (norm : List Char → List Char) (limit : Nat)
    (st : Book) (fs : FS) (title : List Char) (h : title = []) :
    set_title norm limit st fs title = some (st, []) := by
  rw [set_title, if_pos (by simp [h])]

/-- Witness for C10 at a concrete book and filesystem. -/
theorem c10_witness :
    set_title (fun p => p) 100
      { id := 1, authors := "Doe".toList, title := "T".toList,
        path := "Doe/T (1)".toList, formats := [] }
      { dirExists := fun _ => true, file := fun _ => none,
        parentEmptyAfterRm := fun _ => false }
      [] =
      some ({ id := 1, authors := "Doe".toList, title := "T".toList,
              path := "Doe/T (1)".toList, formats := [] }, []) :=
  set_title_empty_noop (fun p => p) 100
    { id := 1, authors := "Doe".toList, title := "T".toList,
      path := "Doe/T (1)".toList, formats := [] }
    { dirExists := fun _ => true, file := fun _ => none,
      parentEmptyAfterRm := fun _ => false }
    [] rfl

/-! ## Claim C7: `remove_format` with the file already gone -/

/-- Claim C7: when the format row exists with a truthy stored name but the
underlying file is inaccessible (already deleted externally), the call
still succeeds: the `os.remove` failure is swallowed by the bare `except`
(no file event), the data rows for the upper-cased tag are deleted, the
change is committed and a `"metadata"` notification is emitted; nothing
propagates to the caller (the function is total). -/
theorem remove_format_missing_file (st : Book) (fs : FS) (fmt n : List Char)
    (hrow : rowName st fmt = some n) (hne : n ≠ [])
    (hfile : fs.file (joinPath st.path (n ++ fmtExt fmt)) = none) :
    remove_format st fs fmt =
      ({ st with formats :=
          st.formats.filter (fun r => !(r.1 == fmt.map Char.toUpper)) },
       [Ev.DeleteRow (fmt.map Char.toUpper), Ev.Commit,
        Ev.Notify metadataEv]) := by
  rw [remove_format, hrow]
  simp only [hfile, Option.isSome_none, Bool.false_eq_true, if_false]
  rw [if_neg (by simpa using hne)]
  rfl

/-- Witness for C7: book 7 with an `EPUB` row whose file is gone. -/
theorem c7_witness :
    remove_format
      { id := 7, authors := "Doe".toList, title := "T".toList,
        path := "Doe/T (7)".toList, formats := [("EPUB".toList, "B".toList)] }
      { dirExists := fun _ => true, file := fun _ => none,
        parentEmptyAfterRm := fun _ => false }
      "EPUB".toList =
      ({ id := 7, authors := "Doe".toList, title := "T".toList,
         path := "Doe/T (7)".toList, formats := [] },
       [Ev.DeleteRow ("EPUB".toList.map Char.toUpper), Ev.Commit,
        Ev.Notify metadataEv]) := by
  have h := remove_format_missing_file
    { id := 7, authors := "Doe".toList, title := "T".toList,
      path := "Doe/T (7)".toList, formats := [("EPUB".toList, "B".toList)] }
    { dirExists := fun _ => true, file := fun _ => none,
      parentEmptyAfterRm := fun _ => false }
    "EPUB".toList "B".toList rfl (by decide) rfl
  simpa using h

/-! ## Claim C3: idempotence of `set_path` -/

/-- Claim C3 as stated is false.  Take a book whose stored path already
equals the recomputed path and whose single `EPUB` row has the stale name
`"X"` (different from the fresh basename `"T - Doe"`) while the file
`X.epub` exists but is empty.  The `changed` check sees the accessible
stale name, so the call does not return early; the migration loop then
skips the empty payload (`if not f: continue`), leaving the stale row
name in place, and the call ends with the path `UPDATE` and the commit —
and with the book state (and, since no file operation was performed, the
filesystem) exactly as before the call.  The call shown below therefore
*is* both the completed first call and the immediately following second
call: the second call repeats the store write and the commit instead of
returning early, because the stale row name still differs from the fresh
basename. -/
theorem c3_counterexample :
    set_path (fun p => p) 100
      { id := 1, authors := "Doe".toList, title := "T".toList,
        path := "Doe/T (1)".toList,
        formats := [("EPUB".toList, "X".toList)] }
      { dirExists := fun p => p == "Doe/T (1)".toList,
        file := fun p => if p == "Doe/T (1)/X.epub".toList then some [] else none,
        parentEmptyAfterRm := fun _ => false } =
      some ({ id := 1, authors := "Doe".toList, title := "T".toList,
              path := "Doe/T (1)".toList,
              formats := [("EPUB".toList, "X".toList)] },
            [Ev.UpdatePath "Doe/T (1)".toList, Ev.Commit]) ∧
    ([Ev.UpdatePath "Doe/T (1)".toList, Ev.Commit] : List Ev) ≠ [] := by
  exact ⟨by decide, by decide⟩

/-- Claim C3, amended: the second `set_path` call is a no-op (early return,
no file operation, no store write) provided the first call left the stored
path equal to the recomputed path *and* left every accessible format's
stored name either falsy or equal to the freshly computed basename.  The
theorem states the early-return condition on any such state; the
counterexample shows the proviso is needed (an accessible format row with
an empty payload keeps its stale name through the first call). -/
theorem set_path_noop_of_clean (norm : List Char → List Char) (limit : Nat)
    (st : Book) (fs : FS)
    (hpath : construct_path_name limit st.authors st.title st.id = st.path)
    (hnames : ∀ f ∈ formatsOf st fs,
      (rowName st f).getD [] = [] ∨
      (rowName st f).getD [] = construct_file_name limit st.authors st.title) :
    set_path norm limit st fs = some (st, []) := by
  have hch : spChanged limit st fs = false := by
    rw [spChanged, List.any_eq_false]
    intro f hf
    rcases hnames f hf with h | h
    · simp [h]
    · simp [h]
  simp [set_path, hpath, hch]

/-- Witness for the amended C3: a book with no format rows whose stored
path equals the recomputed path. -/
theorem c3_witness :
    set_path (fun p => p) 100
      { id := 1, authors := "Doe".toList, title := "T".toList,
        path := "Doe/T (1)".toList, formats := [] }
      { dirExists := fun _ => true, file := fun _ => none,
        parentEmptyAfterRm := fun _ => false } =
      some ({ id := 1, authors := "Doe".toList, title := "T".toList,
              path := "Doe/T (1)".toList, formats := [] }, []) :=
  set_path_noop_of_clean (fun p => p) 100
    { id := 1, authors := "Doe".toList, title := "T".toList,
      path := "Doe/T (1)".toList, formats := [] }
    { dirExists := fun _ => true, file := fun _ => none,
      parentEmptyAfterRm := fun _ => false }
    (by decide) (by decide)

/-! ## Claim C8: deletion ordering inside `set_path` -/

/-- The migration loop performs only file writes, commits and
notifications — never a directory deletion. -/
theorem migrateFormats_no_rmtree (fs : FS) (spath tpath fname : List Char) :
    ∀ (fl : List (List Char)) (rows rows2 : List (List Char × List Char))
      (evs : List Ev),
      migrateFormats fs spath tpath fname fl rows = some (rows2, evs) →
      ∀ e ∈ evs, ∀ d, e ≠ Ev.RmTree d
  | [], rows, rows2, evs, h => by
    simp only [migrateFormats, Option.some.injEq, Prod.mk.injEq] at h
    rw [← h.2]
    intro e he
    exact absurd he (List.not_mem_nil e)
  | f :: rest, rows, rows2, evs, h => by
    rw [migrateFormats] at h
    cases hr : rowNameIn rows f with
    | none => rw [hr] at h; exact absurd h (by simp)
    | some n =>
      rw [hr] at h
      dsimp only at h
      by_cases hne : n.isEmpty
      · rw [if_pos hne] at h; exact absurd h (by simp)
      · rw [if_neg hne] at h
        cases hf : fs.file (joinPath spath (n ++ fmtExt f)) with
        | none => rw [hf] at h; exact absurd h (by simp)
        | some content =>
          rw [hf] at h
          dsimp only at h
          by_cases hc : content.isEmpty
          · rw [if_pos hc] at h
            exact migrateFormats_no_rmtree fs spath tpath fname rest rows
              rows2 evs h
          · rw [if_neg hc] at h
            cases hm : migrateFormats fs spath tpath fname rest
                ((rows.filter (fun r => !(r.1 == f))) ++
                  [(f.map Char.toUpper, fname)]) with
            | none => rw [hm] at h; exact absurd h (by simp)
            | some p =>
              rw [hm] at h
              dsimp only at h
              simp only [Option.some.injEq, Prod.mk.injEq] at h
              rw [← h.2]
              intro e he d
              rcases List.mem_cons.mp he with rfl | he1
              · simp
              rcases List.mem_cons.mp he1 with rfl | he2
              · simp
              rcases List.mem_cons.mp he2 with rfl | he3
              · simp
              · exact migrateFormats_no_rmtree fs spath tpath fname rest
                  ((rows.filter (fun r => !(r.1 == f))) ++
                    [(f.map Char.toUpper, fname)]) p.1 p.2
                  (by rw [hm]) e he3 d

/-- Claim C8: in every completed execution of `set_path`, either nothing
happened (early return) or the trace decomposes as a deletion-free prefix,
then the store write of the new path immediately followed by its commit,
then a suffix consisting only of directory deletions; the suffix is
non-empty only when the normalized old directory differs from the
normalized new one, and in that case it starts with the removal of the old
directory.  Hence the old directory is never removed before the new path
is committed, and never removed when it coincides (after normalization)
with the new directory. -/
theorem set_path_delete_after_commit (norm : List Char → List Char)
    (limit : Nat) (st : Book) (fs : FS) (st' : Book) (tr : List Ev)
    (h : set_path norm limit st fs = some (st', tr)) :
    tr = [] ∨
    ∃ pre del,
      tr = pre ++ Ev.UpdatePath (construct_path_name limit st.authors st.title st.id) ::
        Ev.Commit :: del ∧
      (∀ e ∈ pre, ∀ d, e ≠ Ev.RmTree d) ∧
      (∀ e ∈ del, ∃ d, e = Ev.RmTree d) ∧
      (del ≠ [] →
        norm st.path ≠ norm (construct_path_name limit st.authors st.title st.id) ∧
        del.head? = some (Ev.RmTree st.path)) := by
  rw [set_path] at h
  by_cases h1 : (construct_path_name limit st.authors st.title st.id == st.path &&
      !(spChanged limit st fs)) = true
  · rw [if_pos h1] at h
    simp only [Option.some.injEq, Prod.mk.injEq] at h
    exact Or.inl h.2.symm
  · rw [if_neg h1] at h
    have hmk : ∀ e ∈ (if fs.dirExists (construct_path_name limit st.authors st.title st.id)
        then ([] : List Ev)
        else [Ev.MakeDirs (construct_path_name limit st.authors st.title st.id)]),
        ∀ d, e ≠ Ev.RmTree d := by
      intro e he d
      by_cases hd : fs.dirExists (construct_path_name limit st.authors st.title st.id)
      · rw [if_pos hd] at he; exact absurd he (List.not_mem_nil e)
      · rw [if_neg hd] at he
        rcases List.mem_cons.mp he with rfl | he'
        · simp
        · exact absurd he' (List.not_mem_nil e)
    have hcov : ∀ e ∈ spCoverEvs st fs (construct_path_name limit st.authors st.title st.id),
        ∀ d, e ≠ Ev.RmTree d := by
      intro e he d
      rw [spCoverEvs] at he
      by_cases hc : (fs.file (joinPath st.path coverName)).isSome
      · rw [if_pos hc] at he
        rcases List.mem_cons.mp he with rfl | he'
        · simp
        · exact absurd he' (List.not_mem_nil e)
      · rw [if_neg hc] at he; exact absurd he (List.not_mem_nil e)
    have hdel : ∀ e ∈ spDels norm fs st.path
        (construct_path_name limit st.authors st.title st.id), ∃ d, e = Ev.RmTree d := by
      intro e he
      rw [spDels] at he
      by_cases hn : (!(norm st.path ==
          norm (construct_path_name limit st.authors st.title st.id))) = true
      · rw [if_pos hn] at he
        rcases List.mem_cons.mp he with rfl | he'
        · exact ⟨st.path, rfl⟩
        · by_cases hp : fs.parentEmptyAfterRm (dirname st.path)
          · rw [if_pos hp] at he'
            rcases List.mem_cons.mp he' with rfl | he2
            · exact ⟨dirname st.path, rfl⟩
            · exact absurd he2 (List.not_mem_nil e)
          · rw [if_neg hp] at he'; exact absurd he' (List.not_mem_nil e)
      · rw [if_neg hn] at he; exact absurd he (List.not_mem_nil e)
    have hdelne : spDels norm fs st.path
        (construct_path_name limit st.authors st.title st.id) ≠ [] →
        norm st.path ≠ norm (construct_path_name limit st.authors st.title st.id) ∧
        (spDels norm fs st.path
          (construct_path_name limit st.authors st.title st.id)).head? =
          some (Ev.RmTree st.path) := by
      intro hne
      rw [spDels] at hne ⊢
      by_cases hn : (!(norm st.path ==
          norm (construct_path_name limit st.authors st.title st.id))) = true
      · refine ⟨by simpa using hn, ?_⟩
        rw [if_pos hn]
        rfl
      · rw [if_neg hn] at hne
        exact absurd rfl hne
    by_cases h2 : (!(st.path.isEmpty) && (fs.dirExists st.path ||
        st.path == construct_path_name limit st.authors st.title st.id)) = true
    · rw [if_pos h2] at h
      cases hm : migrateFormats fs st.path
          (construct_path_name limit st.authors st.title st.id)
          (construct_file_name limit st.authors st.title) (formatsOf st fs)
          st.formats with
      | none => rw [hm] at h; exact absurd h (by simp)
      | some p =>
        rw [hm] at h
        simp only [Option.some.injEq, Prod.mk.injEq] at h
        right
        refine ⟨(if fs.dirExists (construct_path_name limit st.authors st.title st.id)
            then ([] : List Ev)
            else [Ev.MakeDirs (construct_path_name limit st.authors st.title st.id)]) ++
            spCoverEvs st fs (construct_path_name limit st.authors st.title st.id) ++
            p.2,
          spDels norm fs st.path (construct_path_name limit st.authors st.title st.id),
          ?_, ?_, hdel, hdelne⟩
        · rw [← h.2]
        · intro e he d
          rcases List.mem_append.mp he with he' | hef
          · rcases List.mem_append.mp he' with hm' | hc'
            · exact hmk e hm' d
            · exact hcov e hc' d
          · exact migrateFormats_no_rmtree fs st.path
              (construct_path_name limit st.authors st.title st.id)
              (construct_file_name limit st.authors st.title) (formatsOf st fs)
              st.formats p.1 p.2 (by rw [hm]) e hef d
    · rw [if_neg h2] at h
      simp only [Option.some.injEq, Prod.mk.injEq] at h
      right
      refine ⟨(if fs.dirExists (construct_path_name limit st.authors st.title st.id)
          then ([] : List Ev)
          else [Ev.MakeDirs (construct_path_name limit st.authors st.title st.id)]),
        [], ?_, hmk, ?_, ?_⟩
      · rw [← h.2]
      · intro e he; exact absurd he (List.not_mem_nil e)
      · intro hne; exact absurd rfl hne

/-! ## Claim C8 witness -/

/-- Witness for C8: a genuine relocation of a book from `Old/D (1)` to
`Doe/T (1)` — the trace is the store write, the commit, and then the
removal of the old directory. -/
theorem c8_witness :
    ([Ev.UpdatePath "Doe/T (1)".toList, Ev.Commit,
      Ev.RmTree "Old/D (1)".toList] : List Ev) = [] ∨
    ∃ pre del,
      ([Ev.UpdatePath "Doe/T (1)".toList, Ev.Commit,
        Ev.RmTree "Old/D (1)".toList] : List Ev) =
        pre ++ Ev.UpdatePath (construct_path_name 100 "Doe".toList "T".toList 1) ::
          Ev.Commit :: del ∧
      (∀ e ∈ pre, ∀ d, e ≠ Ev.RmTree d) ∧
      (∀ e ∈ del, ∃ d, e = Ev.RmTree d) ∧
      (del ≠ [] →
        "Old/D (1)".toList ≠ construct_path_name 100 "Doe".toList "T".toList 1 ∧
        del.head? = some (Ev.RmTree "Old/D (1)".toList)) :=
  set_path_delete_after_commit (fun p => p) 100
    { id := 1, authors := "Doe".toList, title := "T".toList,
      path := "Old/D (1)".toList, formats := [] }
    { dirExists := fun _ => true, file := fun _ => none,
      parentEmptyAfterRm := fun _ => false }
    { id := 1, authors := "Doe".toList, title := "T".toList,
      path := "Doe/T (1)".toList, formats := [] }
    [Ev.UpdatePath "Doe/T (1)".toList, Ev.Commit, Ev.RmTree "Old/D (1)".toList]
    (by decide)

/-! ## Claim C1: the ResultCache invariant -/

instance (s : RCState) : Decidable (rcInv s) := by
  unfold rcInv
  infer_instance

/-- Claim C1 as stated is false: the stated invariant (subsequence +
non-tombstone rows) is *not* preserved by `remove`.  Starting from the
freshly initialized empty cache, a single `books_added([0, 0])` call with
a duplicated id (the method never deduplicates its argument) yields a
state satisfying the stated invariant in which id 0 occurs twice in both
orderings; `remove(0)` then tombstones the slot but erases only the
*first* occurrence of the id from each ordering (`list.remove`), leaving
id 0 in `all_ids` with a tombstone row. -/
theorem c1_counterexample :
    rcInvStated (rcBooksAdded { _data := [], _map := [], _map_filtered := [] }
      [0, 0] (fun _ => some ([] : Row))) ∧
    rcRemove (rcBooksAdded { _data := [], _map := [], _map_filtered := [] }
      [0, 0] (fun _ => some ([] : Row))) 0 =
      some { _data := [none, none], _map := [0], _map_filtered := [0] } ∧
    ¬ rcInvStated { _data := [none, none], _map := [0], _map_filtered := [0] } := by
  exact ⟨by decide, by decide, by decide⟩

/-- Claim C1, amended: strengthen the invariant with duplicate-freedom of
`all_ids` (`rcInv`); then it is established by `refresh` (for a scan whose
ids are distinct, each sorted id having a row, and whose last row carries
the maximal id, as an ordered scan does) and preserved by `filter` (any
flags), by `books_added` for distinct fresh ids whose rows exist, and by
`remove`.  Without the duplicate-freedom clause the `remove` case fails
(see the counterexample). -/
theorem rcInv_preserved :
    (∀ (sortedIds : List Nat) (meta : List (Nat × Row)),
      sortedIds.Nodup →
      (∀ id ∈ sortedIds, ∃ r, (id, r) ∈ meta) →
      (∀ p ∈ meta, ∀ q, meta.getLast? = some q → p.1 ≤ q.1) →
      rcInv (rcRefresh sortedIds meta)) ∧
    (∀ (s : RCState) (filters : List (Option Row → Bool)) (refilter mOR : Bool)
        (s' : RCState),
      rcInv s → rcFilter s filters refilter mOR = some s' → rcInv s') ∧
    (∀ (s : RCState) (ids : List Nat) (conn : Nat → Option Row),
      rcInv s → ids.Nodup → (∀ id ∈ ids, id ∉ s._map) →
      (∀ id ∈ ids, (conn id).isSome) →
      rcInv (rcBooksAdded s ids conn)) ∧
    (∀ (s : RCState) (id : Nat) (s' : RCState),
      rcInv s → rcRemove s id = some s' → rcInv s') := by
  refine ⟨?_, ?_, ?_, ?_⟩
  · -- refresh establishes the invariant
    intro sortedIds meta hnd hmem hbound
    unfold rcInv rcInvStated
    rw [rcRefresh]
    refine ⟨⟨List.Sublist.refl _, ?_, ?_⟩, hnd⟩ <;>
    · intro id hid
      obtain ⟨r, hr⟩ := hmem id hid
      have hne : meta ≠ [] := by
        intro hnil
        rw [hnil] at hr
        exact absurd hr (List.not_mem_nil _)
      obtain ⟨q, hq⟩ : ∃ q, meta.getLast? = some q := by
        cases hql : meta.getLast? with
        | none => exact absurd (List.getLast?_eq_none_iff.mp hql) hne
        | some q => exact ⟨q, rfl⟩
      refine foldl_set_isSome Prod.fst (fun p => some p.2) meta _ id
        (fun x _ => rfl) (Or.inl ⟨(id, r), hr, rfl, ?_⟩)
      rw [List.length_replicate, hq]
      have hle := hbound (id, r) hr q hq
      simp only []
      omega
  · -- filter preserves the invariant
    intro s filters refilter mOR s' hinv hs'
    unfold rcInv rcInvStated at hinv ⊢
    simp only [rcFilter] at hs'
    have hsub0 : (if refilter = true then s._map_filtered else s._map).Sublist
        s._map := by
      cases refilter
      · simp
      · simpa using hinv.1.1
    by_cases he : filters.isEmpty
    · rw [if_pos he] at hs'
      simp only [Option.some.injEq] at hs'
      rw [← hs']
      exact ⟨⟨hsub0, hinv.1.2.1,
        fun id hid => hinv.1.2.1 id (hsub0.subset hid)⟩, hinv.2⟩
    · by_cases hall : ((if refilter = true then s._map_filtered else s._map).all
          (fun id => decide (id < s._data.length))) = true
      · rw [if_neg he, if_pos hall] at hs'
        simp only [Option.some.injEq] at hs'
        rw [← hs']
        have hfe : (List.filter (fun id => !(rcKeep s._data filters mOR id))
              (if refilter = true then s._map_filtered else s._map)).foldl
              (fun acc id => acc.erase id)
              (if refilter = true then s._map_filtered else s._map) =
            (if refilter = true then s._map_filtered else s._map).filter
              (rcKeep s._data filters mOR) :=
          foldl_erase_filter _ _
        refine ⟨⟨?_, hinv.1.2.1, ?_⟩, hinv.2⟩
        · dsimp only
          rw [hfe]
          exact (List.filter_sublist _).trans hsub0
        · intro id hid
          dsimp only at hid
          rw [hfe] at hid
          exact hinv.1.2.1 id (hsub0.subset ((List.filter_sublist _).subset hid))
      · rw [if_neg he, if_neg hall] at hs'
        exact absurd hs' (by simp)
  · -- books_added preserves the invariant for fresh distinct ids
    intro s ids conn hinv hnd hfresh hconn
    unfold rcInv rcInvStated at hinv ⊢
    by_cases he : ids.isEmpty
    · rw [rcBooksAdded, if_pos he]
      exact hinv
    · rw [rcBooksAdded, if_neg he]
      dsimp only
      have hsome : ∀ i,
          (i ∈ ids ∨ (s._data.getD i none).isSome) →
          ((ids.foldl (fun (d : List (Option Row)) j => d.set j (conn j))
            (s._data ++ List.replicate
              (ids.foldl Nat.max 0 + 2 - s._data.length) none)).getD i
                none).isSome := by
        intro i hi
        refine foldl_set_isSome (fun j => j) conn ids _ i hconn ?_
        rcases hi with hnew | hold
        · left
          refine ⟨i, hnew, rfl, ?_⟩
          rw [List.length_append, List.length_replicate]
          have hle := (le_foldl_max ids 0).2 i hnew
          omega
        · right
          rw [getD_append_of_isSome _ hold]
          exact hold
      refine ⟨⟨hinv.1.1.append_left ids, ?_, ?_⟩, ?_⟩
      · intro id hid
        rcases List.mem_append.mp hid with hnew | hold
        · exact hsome id (Or.inl hnew)
        · exact hsome id (Or.inr (hinv.1.2.1 id hold))
      · intro id hid
        rcases List.mem_append.mp hid with hnew | hold
        · exact hsome id (Or.inl hnew)
        · exact hsome id (Or.inr (hinv.1.2.1 id (hinv.1.1.subset hold)))
      · rw [List.nodup_append]
        exact ⟨hnd, hinv.2, fun a ha hb => hfresh a ha hb⟩
  · -- remove preserves the invariant
    intro s id s' hinv hs'
    unfold rcInv rcInvStated at hinv ⊢
    rw [rcRemove] at hs'
    by_cases hlt : id < s._data.length
    · rw [if_pos hlt] at hs'
      simp only [Option.some.injEq] at hs'
      rw [← hs']
      have hfnd : s._map_filtered.Nodup := hinv.1.1.nodup hinv.2
      have hkeep : ∀ i, i ≠ id → (s._data.getD i none).isSome →
          (((s._data.set id none).getD i none)).isSome := by
        intro i hne hi
        rw [List.getD_eq_getElem?_getD,
          List.getElem?_set_ne (fun hh => hne hh.symm),
          ← List.getD_eq_getElem?_getD]
        exact hi
      refine ⟨⟨hinv.1.1.erase id, ?_, ?_⟩, hinv.2.erase id⟩
      · intro i hi
        obtain ⟨hne, hmem⟩ := hinv.2.mem_erase_iff.mp hi
        exact hkeep i hne (hinv.1.2.1 i hmem)
      · intro i hi
        obtain ⟨hne, hmem⟩ := hfnd.mem_erase_iff.mp hi
        exact hkeep i hne (hinv.1.2.1 i (hinv.1.1.subset hmem))
    · rw [if_neg hlt] at hs'
      exact absurd hs' (by simp)

/-- Witness for the amended C1: each of the four operations applied at a
concrete invariant state. -/
theorem c1_witness :
    rcInv (rcRefresh [1] [(1, ([] : Row))]) ∧
    (∃ s', rcFilter { _data := [some ([] : Row)], _map := [0],
                      _map_filtered := [0] }
        [fun r => r.isSome] false false = some s' ∧ rcInv s') ∧
    rcInv (rcBooksAdded { _data := [some ([] : Row)], _map := [0],
                          _map_filtered := [0] } [2]
      (fun _ => some ([] : Row))) ∧
    (∃ s', rcRemove { _data := [some ([] : Row)], _map := [0],
                      _map_filtered := [0] } 0 = some s' ∧ rcInv s') := by
  have h0 :
      rcInv { _data := [some ([] : Row)], _map := [0], _map_filtered := [0] } :=
    by decide
  refine ⟨?_, ?_, ?_, ?_⟩
  · refine rcInv_preserved.1 [1] [(1, [])] (by decide) ?_ ?_
    · intro id hid
      rw [List.mem_singleton] at hid
      subst hid
      exact ⟨[], by simp⟩
    · intro p hp q hq
      rw [List.mem_singleton] at hp
      simp only [List.getLast?_singleton, Option.some.injEq] at hq
      subst hp
      subst hq
      exact Nat.le_refl 1
  · exact ⟨_, rfl, rcInv_preserved.2.1 _ [fun r => r.isSome] false false _ h0 rfl⟩
  · refine rcInv_preserved.2.2.1 _ [2] _ h0 (by decide) ?_ (by intro i _; rfl)
    intro i hi
    rw [List.mem_singleton] at hi
    subst hi
    decide
  · exact ⟨_, rfl, rcInv_preserved.2.2.2 _ 0 _ h0 rfl⟩
